import Mathlib

/-!
Verification of the hakyll2zola converter (src/main.rs) against its
natural-language specification.

The program is embedded at the byte level: a Rust `String` / `&str` is a
`List Nat` of its UTF-8 bytes, so that the character-boundary checks that
`str::get` performs are modelled faithfully.  A Rust operation that can
panic (an `unwrap` on `Option`) is modelled as returning `Option`, where
`none` means the panic occurred.
-/

set_option maxRecDepth 100000

namespace Hakyll2Zola

/-- UTF-8 encoding of a single character (by code point arithmetic). -/
def utf8Char (c : Char) : List Nat :=
  let n := c.toNat
  if n < 0x80 then [n]
  else if n < 0x800 then [0xC0 + n / 0x40, 0x80 + n % 0x40]
  else if n < 0x10000 then
    [0xE0 + n / 0x1000, 0x80 + (n / 0x40) % 0x40, 0x80 + n % 0x40]
  else
    [0xF0 + n / 0x40000, 0x80 + (n / 0x1000) % 0x40,
     0x80 + (n / 0x40) % 0x40, 0x80 + n % 0x40]

/-- The UTF-8 bytes of a string: the byte-level view of a Rust `&str`. -/
def utf8 (s : String) : List Nat := s.data.flatMap utf8Char

/-- A UTF-8 continuation byte (`0x80 ≤ b < 0xC0`), as in Rust's
`str::is_char_boundary` test `(b as i8) < -0x40`. -/
def isCont (b : Nat) : Bool := 0x80 ≤ b && b < 0xC0

/-- Rust `str::is_char_boundary i` on the byte buffer `bs`:
true at 0, at the end of the buffer, and at any non-continuation byte. -/
def isCharBoundary (bs : List Nat) (i : Nat) : Bool :=
  if i = 0 then true
  else
    match bs[i]? with
    | some b => !isCont b
    | none => i == bs.length

/-- Rust `str::get (i..)` on the byte buffer `bs`: the suffix from `i`,
defined exactly when `i` is a char boundary. -/
def sliceFrom (bs : List Nat) (i : Nat) : Option (List Nat) :=
  if isCharBoundary bs i then some (bs.drop i) else none

/-- Rust `str::get (0..j)` on the byte buffer `bs`: the first `j` bytes,
defined exactly when `j` is a char boundary. -/
def sliceTo (bs : List Nat) (j : Nat) : Option (List Nat) :=
  if isCharBoundary bs j then some (bs.take j) else none

/-- `startsWithB pat l`: `pat` is a prefix of `l` (byte comparison). -/
def startsWithB : List Nat → List Nat → Bool
  | [], _ => true
  | _ :: _, [] => false
  | p :: ps, b :: bs => p == b && startsWithB ps bs

/-- Rust `str::find (pat)`: byte index of the leftmost occurrence of
`pat` in `l`, if any. -/
def findSub : List Nat → List Nat → Option Nat
  | l, pat =>
    if startsWithB pat l then some 0
    else
      match l with
      | [] => none
      | _ :: t => (findSub t pat).map (· + 1)

/-- `pat` occurs somewhere in `l`. -/
def containsSub (l pat : List Nat) : Bool := (findSub l pat).isSome

/-- Worker for `splitOnList`, with explicit fuel (the fuel is only a
termination device; `splitOnList` always supplies enough). -/
def splitOnAux (sep : List Nat) : Nat → List Nat → List (List Nat)
  | 0, l => [l]
  | fuel + 1, l =>
    match findSub l sep with
    | none => [l]
    | some idx => l.take idx :: splitOnAux sep fuel (l.drop (idx + sep.length))

/-- Rust `str::split (sep)` for a nonempty separator: the pieces of `l`
strictly between consecutive leftmost occurrences of `sep`. -/
def splitOnList (sep l : List Nat) : List (List Nat) :=
  splitOnAux sep l.length l

/-- `print_list_toml` from src/main.rs: wrap each element in double
quotes (byte 34), join with commas (byte 44), surround with `[` and `]`. -/
def print_list_toml (elements : List (List Nat)) : List Nat :=
  [91] ++ List.intercalate [44] (elements.map (fun t => [34] ++ t ++ [34])) ++ [93]

/-- `print_tags_as_toml` from src/main.rs: split the tags string on the
two-byte separator `", "` (bytes 44, 32) and render as a TOML list. -/
def print_tags_as_toml (tags : List Nat) : List Nat :=
  print_list_toml (splitOnList [44, 32] tags)

/-- The `Metadata` record from src/main.rs (field strings as UTF-8 bytes). -/
structure Metadata where
  title : List Nat
  date : Option (List Nat)
  tags : Option (List Nat)
  «alias» : Option (List Nat)
deriving DecidableEq

/-- `Metadata::format_header` from src/main.rs: the `+++` header with
the fields rendered in source order, no trailing newline after the
closing `+++`. -/
def Metadata.format_header (m : Metadata) : List Nat :=
  utf8 "+++\n"
  ++ (utf8 "title = \"" ++ m.title ++ utf8 "\"\n")
  ++ (match m.date with
      | some d => utf8 "date = " ++ d ++ utf8 "\n"
      | none => [])
  ++ (match m.«alias» with
      | some a => utf8 "aliases = [\"" ++ a ++ utf8 "\"]\n"
      | none => [])
  ++ (match m.tags with
      | some t => utf8 "[taxonomies]\n" ++ utf8 "tags = " ++ print_tags_as_toml t ++ utf8 "\n"
      | none => [])
  ++ utf8 "+++"

/-- The payloads of the `BadSyntax` messages built with `format!` in
src/main.rs.  The three `format!` skeletons
(`"expected {:?} but got {:?}"`, `"unexpected end of input to read {:?}"`,
`"expected \"{:?}\" but not found"`) produce pairwise disjoint sets of
strings, so the structured embedding preserves exactly the information
the string messages carry. -/
inductive ErrMsg where
  | expectedButGot : List Nat → List Nat → ErrMsg
  | unexpectedEndOfInput : List Nat → ErrMsg
  | expectedButNotFound : List Nat → ErrMsg
deriving DecidableEq

/-- Modelled from the spec: the diagnostic of the external structured
decoder (`serde_yaml::Error`, a dependency whose code is not in this
repository).  The only decoder failure the spec commits to is the
missing required field `title`. -/
inductive YamlError where
  | missingTitle : YamlError
deriving DecidableEq

/-- `ParseError` from src/main.rs: `BadSyntax` (scanner level) or
`WrongYaml` (decoder level). -/
inductive ParseError where
  | BadSyntax : ErrMsg → ParseError
  | WrongYaml : YamlError → ParseError
deriving DecidableEq

/-- `ParseResult<T> = Result<T, ParseError>` from src/main.rs. -/
inductive ParseResult (α : Type) where
  | ok : α → ParseResult α
  | err : ParseError → ParseResult α
deriving DecidableEq

/-- Result of the external metadata decoder. -/
inductive DecodeResult where
  | ok : Metadata → DecodeResult
  | err : YamlError → DecodeResult
deriving DecidableEq

/-- First line of `lines` that starts with `key ++ ": "`, with that
prefix removed. -/
def fieldOf (key : String) (lines : List (List Nat)) : Option (List Nat) :=
  (lines.filterMap (fun ln =>
    if startsWithB (utf8 (key ++ ": ")) ln then
      some (ln.drop (utf8 (key ++ ": ")).length)
    else none)).head?

/-- Modelled from the spec: `serde_yaml::from_str` applied to the
captured block (src/main.rs line 116 calls the external serde_yaml
decoder, whose code is not part of this repository).  Per spec §4.2 the
decoder interprets the block as a record of `key: value` lines with
required field `title` and optional `date`, `tags`, `alias`; a missing
`title` fails the decode. -/
def yamlDecode (raw : List Nat) : DecodeResult :=
  let lines := splitOnList [10] raw
  match fieldOf "title" lines with
  | some t => .ok ⟨t, fieldOf "date" lines, fieldOf "tags" lines, fieldOf "alias" lines⟩
  | none => .err .missingTitle

/-- The `Stream` scanner from src/main.rs: a read offset over an
immutable byte buffer. -/
structure Stream where
  offset : Nat
  content : List Nat
deriving DecidableEq

/-- `Stream::new` from src/main.rs. -/
def Stream.new (content : List Nat) : Stream := ⟨0, content⟩

/-- `Stream::current` from src/main.rs:
`self.content.get(self.offset..).unwrap()`.  `none` models the panic of
the `unwrap` when the offset is not a char boundary. -/
def Stream.current (st : Stream) : Option (List Nat) :=
  sliceFrom st.content st.offset

/-- `Stream::read_string` from src/main.rs.  The outer `Option` models
the potential panic of the `unwrap` inside `current`. -/
def Stream.read_string (st : Stream) (s : List Nat) :
    Option (ParseResult (List Nat) × Stream) :=
  match st.current with
  | none => none
  | some cur =>
    let len := s.length
    match sliceTo cur len with
    | some sub =>
      if s = sub then some (.ok sub, ⟨st.offset + len, st.content⟩)
      else some (.err (.BadSyntax (.expectedButGot s sub)), st)
    | none => some (.err (.BadSyntax (.unexpectedEndOfInput s)), st)

/-- `Stream::read_until` from src/main.rs.  The outer `Option` models
the potential panics of the `unwrap`s inside `current` and on
`current().get(0..idx)`. -/
def Stream.read_until (st : Stream) (s : List Nat) :
    Option (ParseResult (List Nat) × Stream) :=
  match st.current with
  | none => none
  | some cur =>
    match findSub cur s with
    | some idx =>
      match sliceTo cur idx with
      | none => none
      | some sliced => some (.ok sliced, ⟨st.offset + idx, st.content⟩)
    | none => some (.err (.BadSyntax (.expectedButNotFound s)), st)

/-- `Stream::read_header` from src/main.rs: consume `---`, capture up to
the next `---`, consume it, decode the captured block; each `?` both
propagates the error and keeps the state reached so far. -/
def Stream.read_header (st : Stream) : Option (ParseResult Metadata × Stream) :=
  match st.read_string (utf8 "---") with
  | none => none
  | some (.err e, st1) => some (.err e, st1)
  | some (.ok _, st1) =>
    match st1.read_until (utf8 "---") with
    | none => none
    | some (.err e, st2) => some (.err e, st2)
    | some (.ok raw, st2) =>
      match st2.read_string (utf8 "---") with
      | none => none
      | some (.err e, st3) => some (.err e, st3)
      | some (.ok _, st3) =>
        match yamlDecode raw with
        | .err ye => some (.err (.WrongYaml ye), st3)
        | .ok m => some (.ok m, st3)

/-- The cursor invariant: the offset is a valid character boundary of
the buffer (which also forces `offset ≤ content.length`). -/
abbrev Inv (st : Stream) : Prop :=
  isCharBoundary st.content st.offset = true

/-- Worker for `wfUtf8`: `wfAux k l` checks that `l` begins with `k`
UTF-8 continuation bytes and continues as a well-formed byte sequence,
with the sequence length of each character determined by its lead byte. -/
def wfAux : Nat → List Nat → Bool
  | 0, [] => true
  | _ + 1, [] => false
  | 0, b :: bs =>
    if b < 0x80 then wfAux 0 bs
    else if b < 0xC0 then false
    else if b < 0xE0 then wfAux 1 bs
    else if b < 0xF0 then wfAux 2 bs
    else wfAux 3 bs
  | k + 1, b :: bs => isCont b && wfAux k bs

/-- Well-formed UTF-8 byte sequence (the chunk structure of a Rust
`String`; used only in theorem hypotheses). -/
def wfUtf8 (l : List Nat) : Bool := wfAux 0 l

/-! ### Lemmas about the byte-list primitives -/

theorem startsWithB_append (p r : List Nat) : startsWithB p (p ++ r) = true := by
  induction p with
  | nil => rfl
  | cons a t ih => simp [startsWithB, ih]

theorem startsWithB_length {p l : List Nat} (h : startsWithB p l = true) :
    p.length ≤ l.length := by
  induction p generalizing l with
  | nil => simp
  | cons a t ih =>
    cases l with
    | nil => simp [startsWithB] at h
    | cons b bs =>
      simp only [startsWithB, Bool.and_eq_true, beq_iff_eq] at h
      simpa using ih h.2

theorem startsWithB_take {p l : List Nat} (h : startsWithB p l = true) :
    l.take p.length = p := by
  induction p generalizing l with
  | nil => simp
  | cons a t ih =>
    cases l with
    | nil => simp [startsWithB] at h
    | cons b bs =>
      simp only [startsWithB, Bool.and_eq_true, beq_iff_eq] at h
      simp [List.take, ih h.2, h.1]

theorem startsWithB_eq_append {p l : List Nat} (h : startsWithB p l = true) :
    l = p ++ l.drop p.length := by
  conv_lhs => rw [← List.take_append_drop p.length l]
  rw [startsWithB_take h]

theorem startsWithB_head {a : Nat} {p l : List Nat}
    (h : startsWithB (a :: p) l = true) : l[0]? = some a := by
  cases l with
  | nil => simp [startsWithB] at h
  | cons b bs =>
    simp only [startsWithB, Bool.and_eq_true, beq_iff_eq] at h
    simp [h.1]

theorem findSub_sound {l pat : List Nat} {i : Nat} (h : findSub l pat = some i) :
    startsWithB pat (l.drop i) = true := by
  induction l generalizing i with
  | nil =>
    simp only [findSub] at h
    split at h
    · cases h; simpa using by assumption
    · cases h
  | cons b t ih =>
    simp only [findSub] at h
    split at h
    · cases h
      simpa using by assumption
    · rw [Option.map_eq_some'] at h
      obtain ⟨j, hj, rfl⟩ := h
      simpa using ih hj

theorem findSub_le {l pat : List Nat} {i : Nat} (h : findSub l pat = some i) :
    i ≤ l.length := by
  induction l generalizing i with
  | nil =>
    simp only [findSub] at h
    split at h
    · cases h; simp
    · cases h
  | cons b t ih =>
    simp only [findSub] at h
    split at h
    · cases h; simp
    · rw [Option.map_eq_some'] at h
      obtain ⟨j, hj, rfl⟩ := h
      simpa using ih hj

theorem findSub_bound {l pat : List Nat} {i : Nat} (h : findSub l pat = some i) :
    i + pat.length ≤ l.length := by
  have h1 := startsWithB_length (findSub_sound h)
  have h2 := findSub_le h
  simp [List.length_drop] at h1
  omega

theorem findSub_cons_none {c : Nat} {t pat : List Nat}
    (h : findSub (c :: t) pat = none) : findSub t pat = none := by
  simp only [findSub] at h
  split at h
  · cases h
  · simpa using h

theorem findSub_cons_not_starts {c : Nat} {t pat : List Nat}
    (h : findSub (c :: t) pat = none) : ¬ startsWithB pat (c :: t) = true := by
  simp only [findSub] at h
  split at h
  · cases h
  · assumption

theorem containsSub_false_iff {l pat : List Nat} :
    containsSub l pat = false ↔ findSub l pat = none := by
  cases hf : findSub l pat <;> simp [containsSub, hf]

/-! ### Lemmas about `splitOnAux` fuel -/

theorem splitOnAux_of_none {sep l : List Nat} (h : findSub l sep = none) :
    ∀ n, splitOnAux sep n l = [l] := by
  intro n
  cases n with
  | zero => rfl
  | succ n => simp [splitOnAux, h]

theorem splitOnAux_congr {sep : List Nat} (hsep : sep ≠ []) :
    ∀ (n m : Nat) (l : List Nat), l.length ≤ n → l.length ≤ m →
      splitOnAux sep n l = splitOnAux sep m l := by
  intro n
  induction n using Nat.strong_induction_on with
  | _ n ih =>
    intro m l hn hm
    cases n with
    | zero =>
      have hl : l = [] := by cases l with | nil => rfl | cons a t => simp at hn
      subst hl
      have hf : findSub [] sep = none := by
        cases sep with
        | nil => exact absurd rfl hsep
        | cons s ss => simp [findSub, startsWithB]
      rw [splitOnAux_of_none hf, splitOnAux_of_none hf]
    | succ n =>
      cases m with
      | zero =>
        have hl : l = [] := by cases l with | nil => rfl | cons a t => simp at hm
        subst hl
        have hf : findSub [] sep = none := by
          cases sep with
          | nil => exact absurd rfl hsep
          | cons s ss => simp [findSub, startsWithB]
        rw [splitOnAux_of_none hf, splitOnAux_of_none hf]
      | succ m =>
        cases hf : findSub l sep with
        | none => simp [splitOnAux, hf]
        | some idx =>
          have hb := findSub_bound hf
          have hsl : 1 ≤ sep.length := by
            cases sep with
            | nil => exact absurd rfl hsep
            | cons s ss => simp
          simp only [splitOnAux, hf]
          have hlen : (l.drop (idx + sep.length)).length ≤ n := by
            simp [List.length_drop]; omega
          have hlen2 : (l.drop (idx + sep.length)).length ≤ m := by
            simp [List.length_drop]; omega
          rw [ih n (Nat.lt_succ_self n) m _ hlen hlen2]

theorem splitOnAux_ge {sep l : List Nat} {n : Nat} (hsep : sep ≠ [])
    (hn : l.length ≤ n) : splitOnAux sep n l = splitOnList sep l :=
  splitOnAux_congr hsep n l.length l hn (Nat.le_refl _)

theorem splitOnList_of_none {sep l : List Nat} (h : findSub l sep = none) :
    splitOnList sep l = [l] :=
  splitOnAux_of_none h _

/-! ### Leftmost-occurrence lemmas for the two separators used -/

theorem findSub_comma_sep {t : List Nat} (r : List Nat)
    (h : containsSub t [44, 32] = false) :
    findSub (t ++ [44, 32] ++ r) [44, 32] = some t.length := by
  induction t with
  | nil => simp [findSub, startsWithB]
  | cons c t' ih =>
    rw [containsSub_false_iff] at h
    have hni : ¬ startsWithB [44, 32] (c :: (t' ++ [44, 32] ++ r)) = true := by
      intro hsw
      cases t' with
      | nil => simp [startsWithB] at hsw
      | cons d t'' =>
        simp only [List.cons_append, startsWithB, Bool.and_eq_true, beq_iff_eq] at hsw
        exact findSub_cons_not_starts h
          (by simp [startsWithB, hsw.1, hsw.2.1])
    have h' : containsSub t' [44, 32] = false := by
      rw [containsSub_false_iff]
      exact findSub_cons_none h
    simp only [List.cons_append, findSub]
    rw [if_neg hni]
    simp only [List.append_eq]
    rw [ih h']
    simp

theorem findSub_dashes {t : List Nat} (r : List Nat)
    (h : containsSub t [45, 45, 45] = false)
    (hl : t.getLast? ≠ some 45) :
    findSub (t ++ [45, 45, 45] ++ r) [45, 45, 45] = some t.length := by
  induction t with
  | nil => simp [findSub, startsWithB]
  | cons c t' ih =>
    rw [containsSub_false_iff] at h
    have hni : ¬ startsWithB [45, 45, 45] (c :: (t' ++ [45, 45, 45] ++ r)) = true := by
      intro hsw
      cases t' with
      | nil =>
        simp only [List.nil_append, List.cons_append, startsWithB,
          Bool.and_eq_true, beq_iff_eq] at hsw
        exact hl (by simp [hsw.1])
      | cons d t'' =>
        cases t'' with
        | nil =>
          simp only [List.cons_append, List.nil_append, startsWithB,
            Bool.and_eq_true, beq_iff_eq] at hsw
          obtain ⟨-, h2, -⟩ := hsw
          subst h2
          exact hl (by simp)
        | cons e t''' =>
          simp only [List.cons_append, startsWithB,
            Bool.and_eq_true, beq_iff_eq] at hsw
          obtain ⟨h1, h2, h3, -⟩ := hsw
          subst h1
          subst h2
          subst h3
          exact findSub_cons_not_starts h (by simp [startsWithB])
    have h' : containsSub t' [45, 45, 45] = false := by
      rw [containsSub_false_iff]
      exact findSub_cons_none h
    have hl' : t'.getLast? ≠ some 45 := by
      cases t' with
      | nil => simp
      | cons d t'' =>
        rw [List.getLast?_cons_cons] at hl
        exact hl
    simp only [List.cons_append, findSub]
    rw [if_neg hni]
    simp only [List.append_eq]
    rw [ih h' hl']
    simp

/-! ### Splitting a `", "`-joined token list recovers the tokens -/

theorem splitOnList_intercalate {ts : List (List Nat)} (hne : ts ≠ [])
    (h : ∀ t ∈ ts, containsSub t [44, 32] = false) :
    splitOnList [44, 32] (List.intercalate [44, 32] ts) = ts := by
  induction ts with
  | nil => exact absurd rfl hne
  | cons t ts' ih =>
    cases ts' with
    | nil =>
      have ht := h t (by simp)
      rw [containsSub_false_iff] at ht
      simp only [List.intercalate, List.intersperse, List.flatten]
      simpa using splitOnList_of_none ht
    | cons t2 ts'' =>
      have hic : List.intercalate [44, 32] (t :: t2 :: ts'')
          = t ++ [44, 32] ++ List.intercalate [44, 32] (t2 :: ts'') := by
        simp [List.intercalate, List.intersperse]
      rw [hic]
      set R := List.intercalate [44, 32] (t2 :: ts'') with hR
      have hfind := findSub_comma_sep R (h t (by simp))
      have hlen : (t ++ [44, 32] ++ R).length = (t.length + 1 + R.length) + 1 := by
        simp only [List.length_append, List.length_cons, List.length_nil]
        omega
      unfold splitOnList
      rw [hlen]
      simp only [splitOnAux, hfind]
      have hsl : ([44, 32] : List Nat).length = 2 := rfl
      rw [hsl]
      have htake : (t ++ [44, 32] ++ R).take t.length = t := by
        rw [List.append_assoc]
        exact List.take_left t ([44, 32] ++ R)
      have hdrop : (t ++ [44, 32] ++ R).drop (t.length + 2) = R := by
        rw [List.append_assoc, List.drop_append]
        rfl
      rw [htake, hdrop]
      have hge : splitOnAux [44, 32] (t.length + 1 + R.length) R
          = splitOnList [44, 32] R := by
        apply splitOnAux_ge (by simp)
        omega
      rw [hge, hR, ih (by simp) (fun u hu => h u (by simp [hu]))]

/-- Claim C3: splitting the tags string on the exact two-byte separator
`", "` with no further trimming: a tags string that is the `", "`-join
of tokens none of which contains the separator (in particular a single
token such as `solo` or one with a comma not followed by a space) is
rendered by `print_tags_as_toml` as exactly the original tokens in
left-to-right order, each wrapped verbatim in double quotes, joined by
commas with no surrounding whitespace inside square brackets. -/
theorem claim3_tag_splitting (ts : List (List Nat)) (hne : ts ≠ [])
    (h : ∀ t ∈ ts, containsSub t [44, 32] = false) :
    print_tags_as_toml (List.intercalate [44, 32] ts)
      = [91] ++ List.intercalate [44] (ts.map (fun t => [34] ++ t ++ [34])) ++ [93] := by
  unfold print_tags_as_toml print_list_toml
  rw [splitOnList_intercalate hne h]

/-- Witness for claim C3 at the concrete tag tokens `x` and `y`
(tags string `"x, y"`) and, in passing, the single-token case. -/
theorem claim3_witness :
    ([[120], [121]] : List (List Nat)) ≠ []
    ∧ (∀ t ∈ ([[120], [121]] : List (List Nat)), containsSub t [44, 32] = false)
    ∧ print_tags_as_toml (List.intercalate [44, 32] [[120], [121]])
      = [91] ++ List.intercalate [44]
          (([[120], [121]] : List (List Nat)).map (fun t => [34] ++ t ++ [34])) ++ [93] :=
  ⟨by decide, by decide, claim3_tag_splitting [[120], [121]] (by decide) (by decide)⟩

/-! ### Lemmas about slices and character boundaries -/

theorem isCharBoundary_zero (bs : List Nat) : isCharBoundary bs 0 = true := by
  simp [isCharBoundary]

theorem isCharBoundary_of_getElem {bs : List Nat} {i b : Nat} (hg : bs[i]? = some b)
    (hb : isCont b = false) : isCharBoundary bs i = true := by
  unfold isCharBoundary
  split
  · rfl
  · simp [hg, hb]

theorem isCharBoundary_length (bs : List Nat) : isCharBoundary bs bs.length = true := by
  unfold isCharBoundary
  split
  · rfl
  · have hn : bs[bs.length]? = none := by simp
    rw [hn]
    simp

theorem isCharBoundary_le {bs : List Nat} {i : Nat} (h : isCharBoundary bs i = true) :
    i ≤ bs.length := by
  by_cases hi : i = 0
  · omega
  · unfold isCharBoundary at h
    rw [if_neg hi] at h
    cases hg : bs[i]? with
    | some b =>
      obtain ⟨hlt, -⟩ := List.getElem?_eq_some.mp hg
      omega
    | none =>
      rw [hg] at h
      simp at h
      omega

theorem isCharBoundary_append_right {a bs : List Nat} {i : Nat} (hi : i ≠ 0)
    (h : isCharBoundary bs i = true) :
    isCharBoundary (a ++ bs) (a.length + i) = true := by
  unfold isCharBoundary at h
  rw [if_neg hi] at h
  cases hg : bs[i]? with
  | some b =>
    rw [hg] at h
    have hgg : (a ++ bs)[a.length + i]? = some b := by
      rw [List.getElem?_append_right (by omega)]
      simpa using hg
    exact isCharBoundary_of_getElem hgg (by simpa using h)
  | none =>
    rw [hg] at h
    simp at h
    rw [h, ← List.length_append]
    exact isCharBoundary_length _

theorem sliceFrom_zero (bs : List Nat) : sliceFrom bs 0 = some bs := by
  simp [sliceFrom, isCharBoundary]

theorem sliceTo_some {bs : List Nat} {j : Nat} {sub : List Nat}
    (h : sliceTo bs j = some sub) :
    isCharBoundary bs j = true ∧ sub = bs.take j := by
  unfold sliceTo at h
  by_cases hb : isCharBoundary bs j = true
  · rw [if_pos hb] at h
    refine ⟨hb, ?_⟩
    injection h with h
    exact h.symm
  · rw [if_neg hb] at h
    cases h

theorem sliceFrom_some {bs : List Nat} {i : Nat} {sub : List Nat}
    (h : sliceFrom bs i = some sub) :
    isCharBoundary bs i = true ∧ sub = bs.drop i := by
  unfold sliceFrom at h
  by_cases hb : isCharBoundary bs i = true
  · rw [if_pos hb] at h
    refine ⟨hb, ?_⟩
    injection h with h
    exact h.symm
  · rw [if_neg hb] at h
    cases h

/-! ### Lemmas about UTF-8 well-formedness -/

theorem wfAux_zero_cons (b : Nat) (bs : List Nat) :
    wfAux 0 (b :: bs)
      = (if b < 0x80 then wfAux 0 bs
         else if b < 0xC0 then false
         else if b < 0xE0 then wfAux 1 bs
         else if b < 0xF0 then wfAux 2 bs
         else wfAux 3 bs) := rfl

theorem wfAux_succ_cons (k b : Nat) (bs : List Nat) :
    wfAux (k + 1) (b :: bs) = (isCont b && wfAux k bs) := rfl

theorem wfAux_succ_nil (k : Nat) : wfAux (k + 1) [] = false := rfl

theorem wfUtf8_cases {l : List Nat} (h : wfUtf8 l = true) :
    l = []
    ∨ (∃ b bs, l = b :: bs ∧ b < 0x80 ∧ wfUtf8 bs = true)
    ∨ (∃ b c1 bs, l = b :: c1 :: bs ∧ 0xC0 ≤ b ∧ b < 0xE0 ∧ isCont c1 = true
        ∧ wfUtf8 bs = true)
    ∨ (∃ b c1 c2 bs, l = b :: c1 :: c2 :: bs ∧ 0xE0 ≤ b ∧ b < 0xF0
        ∧ isCont c1 = true ∧ isCont c2 = true ∧ wfUtf8 bs = true)
    ∨ (∃ b c1 c2 c3 bs, l = b :: c1 :: c2 :: c3 :: bs ∧ 0xF0 ≤ b
        ∧ isCont c1 = true ∧ isCont c2 = true ∧ isCont c3 = true
        ∧ wfUtf8 bs = true) := by
  cases l with
  | nil => exact Or.inl rfl
  | cons b bs =>
    unfold wfUtf8 at h
    rw [wfAux_zero_cons] at h
    by_cases h1 : b < 0x80
    · rw [if_pos h1] at h
      exact Or.inr (Or.inl ⟨b, bs, rfl, h1, h⟩)
    · rw [if_neg h1] at h
      by_cases h2 : b < 0xC0
      · rw [if_pos h2] at h
        cases h
      · rw [if_neg h2] at h
        by_cases h3 : b < 0xE0
        · rw [if_pos h3] at h
          cases bs with
          | nil =>
            rw [wfAux_succ_nil] at h
            cases h
          | cons c1 bs1 =>
            rw [wfAux_succ_cons] at h
            simp only [Bool.and_eq_true] at h
            exact Or.inr (Or.inr (Or.inl ⟨b, c1, bs1, rfl, by omega, h3, h.1, h.2⟩))
        · rw [if_neg h3] at h
          by_cases h4 : b < 0xF0
          · rw [if_pos h4] at h
            cases bs with
            | nil =>
              rw [wfAux_succ_nil] at h
              cases h
            | cons c1 bs1 =>
              rw [wfAux_succ_cons] at h
              cases bs1 with
              | nil =>
                rw [wfAux_succ_nil] at h
                simp at h
              | cons c2 bs2 =>
                rw [wfAux_succ_cons] at h
                simp only [Bool.and_eq_true] at h
                exact Or.inr (Or.inr (Or.inr (Or.inl
                  ⟨b, c1, c2, bs2, rfl, by omega, h4, h.1, h.2.1, h.2.2⟩)))
          · rw [if_neg h4] at h
            cases bs with
            | nil =>
              rw [wfAux_succ_nil] at h
              cases h
            | cons c1 bs1 =>
              rw [wfAux_succ_cons] at h
              cases bs1 with
              | nil =>
                rw [wfAux_succ_nil] at h
                simp at h
              | cons c2 bs2 =>
                rw [wfAux_succ_cons] at h
                cases bs2 with
                | nil =>
                  rw [wfAux_succ_nil] at h
                  simp at h
                | cons c3 bs3 =>
                  rw [wfAux_succ_cons] at h
                  simp only [Bool.and_eq_true] at h
                  exact Or.inr (Or.inr (Or.inr (Or.inr
                    ⟨b, c1, c2, c3, bs3, rfl, by omega, h.1, h.2.1, h.2.2.1, h.2.2.2⟩)))

theorem wfUtf8_head_not_cont {b : Nat} {bs : List Nat} (h : wfUtf8 (b :: bs) = true) :
    isCont b = false := by
  unfold wfUtf8 at h
  rw [wfAux_zero_cons] at h
  by_cases h1 : b < 0x80
  · simp [isCont]
    omega
  · rw [if_neg h1] at h
    by_cases h2 : b < 0xC0
    · rw [if_pos h2] at h
      cases h
    · simp [isCont]
      omega

theorem wfUtf8_append_right : ∀ (s t : List Nat), wfUtf8 (s ++ t) = true →
    wfUtf8 s = true → wfUtf8 t = true := by
  suffices H : ∀ (n : Nat) (s t : List Nat), s.length ≤ n → wfUtf8 (s ++ t) = true →
      wfUtf8 s = true → wfUtf8 t = true by
    exact fun s t h1 h2 => H s.length s t (Nat.le_refl _) h1 h2
  intro n
  induction n using Nat.strong_induction_on with
  | _ n ih =>
    intro s t hlen hst hs
    rcases wfUtf8_cases hs with rfl | ⟨b, bs, rfl, hb, hwf⟩
      | ⟨b, c1, bs, rfl, hb1, hb2, hc1, hwf⟩
      | ⟨b, c1, c2, bs, rfl, hb1, hb2, hc1, hc2, hwf⟩
      | ⟨b, c1, c2, c3, bs, rfl, hb1, hc1, hc2, hc3, hwf⟩
    · simpa using hst
    · rw [List.cons_append] at hst
      unfold wfUtf8 at hst
      rw [wfAux_zero_cons, if_pos hb] at hst
      have hl : bs.length < n := by
        simp at hlen
        omega
      exact ih bs.length hl bs t (Nat.le_refl _) hst hwf
    · rw [List.cons_append, List.cons_append] at hst
      unfold wfUtf8 at hst
      rw [wfAux_zero_cons, if_neg (by omega), if_neg (by omega), if_pos hb2,
          wfAux_succ_cons] at hst
      simp only [Bool.and_eq_true] at hst
      have hl : bs.length < n := by
        simp at hlen
        omega
      exact ih bs.length hl bs t (Nat.le_refl _) hst.2 hwf
    · rw [List.cons_append, List.cons_append, List.cons_append] at hst
      unfold wfUtf8 at hst
      rw [wfAux_zero_cons, if_neg (by omega), if_neg (by omega), if_neg (by omega),
          if_pos hb2, wfAux_succ_cons, wfAux_succ_cons] at hst
      simp only [Bool.and_eq_true] at hst
      have hl : bs.length < n := by
        simp at hlen
        omega
      exact ih bs.length hl bs t (Nat.le_refl _) hst.2.2 hwf
    · rw [List.cons_append, List.cons_append, List.cons_append, List.cons_append] at hst
      unfold wfUtf8 at hst
      rw [wfAux_zero_cons, if_neg (by omega), if_neg (by omega), if_neg (by omega),
          if_neg (by omega), wfAux_succ_cons, wfAux_succ_cons, wfAux_succ_cons] at hst
      simp only [Bool.and_eq_true] at hst
      have hl : bs.length < n := by
        simp at hlen
        omega
      exact ih bs.length hl bs t (Nat.le_refl _) hst.2.2.2 hwf

theorem isCharBoundary_cons_succ {b : Nat} {bs : List Nat} {j : Nat}
    (h : isCharBoundary (b :: bs) (j + 1) = true) : isCharBoundary bs j = true := by
  by_cases hj : j = 0
  · subst hj
    exact isCharBoundary_zero bs
  · unfold isCharBoundary at h ⊢
    rw [if_neg (by omega)] at h
    rw [if_neg hj]
    have hsh : (b :: bs)[j + 1]? = bs[j]? := by simp
    rw [hsh] at h
    cases hg : bs[j]? with
    | some x =>
      rw [hg] at h
      exact h
    | none =>
      rw [hg] at h
      simp at h ⊢
      omega

theorem isCharBoundary_cons_one {b c1 : Nat} {bs : List Nat} (hc : isCont c1 = true) :
    isCharBoundary (b :: c1 :: bs) 1 = false := by
  unfold isCharBoundary
  rw [if_neg (by omega)]
  simp [hc]

theorem wfUtf8_drop : ∀ {l : List Nat}, wfUtf8 l = true → ∀ {i : Nat},
    isCharBoundary l i = true → wfUtf8 (l.drop i) = true := by
  suffices H : ∀ (n : Nat) (l : List Nat), l.length ≤ n → wfUtf8 l = true →
      ∀ (i : Nat), isCharBoundary l i = true → wfUtf8 (l.drop i) = true by
    exact fun {l} hl {i} hi => H l.length l (Nat.le_refl _) hl i hi
  intro n
  induction n using Nat.strong_induction_on with
  | _ n ih =>
    intro l hlen hl i hi
    rcases wfUtf8_cases hl with rfl | ⟨b, bs, rfl, hb, hwf⟩
      | ⟨b, c1, bs, rfl, hb1, hb2, hc1, hwf⟩
      | ⟨b, c1, c2, bs, rfl, hb1, hb2, hc1, hc2, hwf⟩
      | ⟨b, c1, c2, c3, bs, rfl, hb1, hc1, hc2, hc3, hwf⟩
    · simpa using hl
    · cases i with
      | zero => simpa using hl
      | succ j =>
        have hb' := isCharBoundary_cons_succ hi
        have hln : bs.length < n := by
          simp at hlen
          omega
        simpa using ih bs.length hln bs (Nat.le_refl _) hwf j hb'
    · cases i with
      | zero => simpa using hl
      | succ i1 =>
        cases i1 with
        | zero =>
          rw [isCharBoundary_cons_one hc1] at hi
          cases hi
        | succ j =>
          have hb' := isCharBoundary_cons_succ (isCharBoundary_cons_succ hi)
          have hln : bs.length < n := by
            simp at hlen
            omega
          simpa using ih bs.length hln bs (Nat.le_refl _) hwf j hb'
    · cases i with
      | zero => simpa using hl
      | succ i1 =>
        cases i1 with
        | zero =>
          rw [isCharBoundary_cons_one hc1] at hi
          cases hi
        | succ i2 =>
          cases i2 with
          | zero =>
            have hi' := isCharBoundary_cons_succ hi
            rw [isCharBoundary_cons_one hc2] at hi'
            cases hi'
          | succ j =>
            have hb' := isCharBoundary_cons_succ
              (isCharBoundary_cons_succ (isCharBoundary_cons_succ hi))
            have hln : bs.length < n := by
              simp at hlen
              omega
            simpa using ih bs.length hln bs (Nat.le_refl _) hwf j hb'
    · cases i with
      | zero => simpa using hl
      | succ i1 =>
        cases i1 with
        | zero =>
          rw [isCharBoundary_cons_one hc1] at hi
          cases hi
        | succ i2 =>
          cases i2 with
          | zero =>
            have hi' := isCharBoundary_cons_succ hi
            rw [isCharBoundary_cons_one hc2] at hi'
            cases hi'
          | succ i3 =>
            cases i3 with
            | zero =>
              have hi' := isCharBoundary_cons_succ (isCharBoundary_cons_succ hi)
              rw [isCharBoundary_cons_one hc3] at hi'
              cases hi'
            | succ j =>
              have hb' := isCharBoundary_cons_succ (isCharBoundary_cons_succ
                (isCharBoundary_cons_succ (isCharBoundary_cons_succ hi)))
              have hln : bs.length < n := by
                simp at hlen
                omega
              simpa using ih bs.length hln bs (Nat.le_refl _) hwf j hb'

theorem isCharBoundary_of_wf_drop {l : List Nat} {n : Nat} (hn : n ≤ l.length)
    (hwf : wfUtf8 (l.drop n) = true) : isCharBoundary l n = true := by
  by_cases h0 : n = 0
  · subst h0
    exact isCharBoundary_zero l
  · by_cases hl : n = l.length
    · subst hl
      exact isCharBoundary_length l
    · have hlt : n < l.length := by omega
      have hd : l.drop n = l[n] :: l.drop (n + 1) := List.drop_eq_getElem_cons hlt
      rw [hd] at hwf
      exact isCharBoundary_of_getElem (List.getElem?_eq_getElem hlt)
        (wfUtf8_head_not_cont hwf)

theorem isCharBoundary_drop_shift {bs : List Nat} {n m : Nat}
    (hn : isCharBoundary bs n = true) (hm : isCharBoundary (bs.drop n) m = true) :
    isCharBoundary bs (n + m) = true := by
  by_cases hm0 : m = 0
  · subst hm0
    simpa using hn
  · unfold isCharBoundary at hm
    rw [if_neg hm0] at hm
    cases hg : (bs.drop n)[m]? with
    | some b =>
      rw [hg] at hm
      have hb : bs[n + m]? = some b := by
        rw [← List.getElem?_drop]
        exact hg
      exact isCharBoundary_of_getElem hb (by simpa using hm)
    | none =>
      rw [hg] at hm
      simp at hm
      have hnle : n ≤ bs.length := isCharBoundary_le hn
      have heq : n + m = bs.length := by omega
      rw [heq]
      exact isCharBoundary_length _

theorem findSub_nil_pat (l : List Nat) : findSub l [] = some 0 := by
  cases l with
  | nil => rfl
  | cons b t =>
    unfold findSub
    simp [startsWithB]

theorem findSub_boundary {curl s : List Nat} {idx : Nat} (hs : wfUtf8 s = true)
    (hf : findSub curl s = some idx) : isCharBoundary curl idx = true := by
  cases s with
  | nil =>
    rw [findSub_nil_pat] at hf
    injection hf with hf
    rw [← hf]
    exact isCharBoundary_zero _
  | cons a s' =>
    have hsw := findSub_sound hf
    have hhead : (curl.drop idx)[0]? = some a := startsWithB_head hsw
    have hidx : curl[idx]? = some a := by
      rw [List.getElem?_drop] at hhead
      simpa using hhead
    exact isCharBoundary_of_getElem hidx (wfUtf8_head_not_cont hs)

/-- Claim C8: a metadata record with only `title` set renders as exactly
the opening marker line, the single `title` line with the title inserted
verbatim (no escaping) between double quotes, and the closing `+++` with
no trailing newline — no taxonomy section and no other field lines. -/
theorem claim8_title_only_header (title : List Nat) :
    Metadata.format_header ⟨title, none, none, none⟩
      = utf8 "+++\ntitle = \"" ++ title ++ utf8 "\"\n+++" := by
  have e1 : utf8 "+++\ntitle = \"" = utf8 "+++\n" ++ utf8 "title = \"" := by decide
  have e2 : utf8 "\"\n+++" = utf8 "\"\n" ++ utf8 "+++" := by decide
  simp only [Metadata.format_header]
  rw [e1, e2]
  simp [List.append_assoc]

/-- Claim C1: on the input
`"---\ntitle: Hello\ndate: 2020-02-01\ntags: x, y\n---\nBody text"`,
`read_header` succeeds with title `Hello`, date `2020-02-01`, tags
`x, y`; rendering that metadata with `format_header` and appending the
remaining suffix returned by `current` yields exactly
`"+++\ntitle = \"Hello\"\ndate = 2020-02-01\n[taxonomies]\ntags = [\"x\",\"y\"]\n+++\nBody text"`. -/
theorem claim1_end_to_end :
    Stream.read_header
        (Stream.new (utf8 "---\ntitle: Hello\ndate: 2020-02-01\ntags: x, y\n---\nBody text"))
      = some (.ok ⟨utf8 "Hello", some (utf8 "2020-02-01"), some (utf8 "x, y"), none⟩,
              ⟨48, utf8 "---\ntitle: Hello\ndate: 2020-02-01\ntags: x, y\n---\nBody text"⟩)
    ∧ Stream.current ⟨48, utf8 "---\ntitle: Hello\ndate: 2020-02-01\ntags: x, y\n---\nBody text"⟩
      = some (utf8 "\nBody text")
    ∧ Metadata.format_header ⟨utf8 "Hello", some (utf8 "2020-02-01"), some (utf8 "x, y"), none⟩
        ++ utf8 "\nBody text"
      = utf8 "+++\ntitle = \"Hello\"\ndate = 2020-02-01\n[taxonomies]\ntags = [\"x\",\"y\"]\n+++\nBody text" := by
  refine ⟨by decide, by decide, by decide⟩

/-- Claim C4: the four failure conditions — unexpected end of input,
literal mismatch (expected vs. actual), delimiter not found, and
metadata decode failure — produce four pairwise distinct error values;
in particular an opening delimiter with no later `---` fails through
`read_header` with the delimiter-not-found error, and exhausting the
buffer in `read_string` is distinct from a content mismatch. -/
theorem claim4_error_taxonomy :
    Stream.read_string (Stream.new (utf8 "--")) (utf8 "---")
      = some (.err (.BadSyntax (.unexpectedEndOfInput (utf8 "---"))), Stream.new (utf8 "--"))
    ∧ Stream.read_string (Stream.new (utf8 "+++x")) (utf8 "---")
      = some (.err (.BadSyntax (.expectedButGot (utf8 "---") (utf8 "+++"))), Stream.new (utf8 "+++x"))
    ∧ Stream.read_header (Stream.new (utf8 "---abc"))
      = some (.err (.BadSyntax (.expectedButNotFound (utf8 "---"))), ⟨3, utf8 "---abc"⟩)
    ∧ Stream.read_header (Stream.new (utf8 "------"))
      = some (.err (.WrongYaml .missingTitle), ⟨6, utf8 "------"⟩)
    ∧ (ParseError.BadSyntax (.unexpectedEndOfInput (utf8 "---"))
         ≠ .BadSyntax (.expectedButGot (utf8 "---") (utf8 "+++")))
    ∧ (ParseError.BadSyntax (.unexpectedEndOfInput (utf8 "---"))
         ≠ .BadSyntax (.expectedButNotFound (utf8 "---")))
    ∧ (ParseError.BadSyntax (.unexpectedEndOfInput (utf8 "---")) ≠ .WrongYaml .missingTitle)
    ∧ (ParseError.BadSyntax (.expectedButGot (utf8 "---") (utf8 "+++"))
         ≠ .BadSyntax (.expectedButNotFound (utf8 "---")))
    ∧ (ParseError.BadSyntax (.expectedButGot (utf8 "---") (utf8 "+++")) ≠ .WrongYaml .missingTitle)
    ∧ (ParseError.BadSyntax (.expectedButNotFound (utf8 "---")) ≠ .WrongYaml .missingTitle) := by
  refine ⟨by decide, by decide, by decide, by decide, by decide,
          by decide, by decide, by decide, by decide, by decide⟩

/-- Claim C10: on the buffer `"aあ"` (bytes 97, 227, 129, 130) with
expected string `"ab"`, at least `2` bytes remain past the cursor, yet
byte position `2` falls inside the multi-byte character, so the guarded
slice lookup yields no slice and `read_string` takes the
end-of-input branch: no panic, but the error conflates a
character-boundary miss with buffer exhaustion. -/
theorem claim10_boundary_conflated_with_eof :
    (utf8 "ab").length ≤ ((utf8 "aあ").drop 0).length
    ∧ isCharBoundary (utf8 "aあ") 2 = false
    ∧ Stream.read_string (Stream.new (utf8 "aあ")) (utf8 "ab")
      = some (.err (.BadSyntax (.unexpectedEndOfInput (utf8 "ab"))), Stream.new (utf8 "aあ")) := by
  refine ⟨by decide, by decide, by decide⟩

/-- Claim C2 counterexample: the block `"title: T\n-"` contains no
`"---"`, yet on the input `"---" ++ block ++ "---" ++ "B"` the scanner
finds the closing delimiter one byte early (it overlaps the block's
trailing `-`), `read_header` still succeeds, and the remaining suffix is
`"-B"`, not the body `"B"`. -/
theorem claim2_counterexample :
    containsSub (utf8 "title: T\n-") (utf8 "---") = false
    ∧ Stream.read_header
        (Stream.new (utf8 "---" ++ utf8 "title: T\n-" ++ utf8 "---" ++ utf8 "B"))
      = some (.ok ⟨utf8 "T", none, none, none⟩,
              ⟨15, utf8 "---" ++ utf8 "title: T\n-" ++ utf8 "---" ++ utf8 "B"⟩)
    ∧ Stream.current ⟨15, utf8 "---" ++ utf8 "title: T\n-" ++ utf8 "---" ++ utf8 "B"⟩
      = some (utf8 "-B")
    ∧ utf8 "-B" ≠ utf8 "B" := by
  refine ⟨by decide, by decide, by decide, by decide⟩

/-- Claim C2 (amended): for every input that is exactly
`"---" ++ block ++ "---" ++ body` where `block` does not contain `"---"`
and does not end with the byte `-` (45), after a successful
`read_header` the scanner's `current` returns `body` byte-for-byte
(`current` takes the stream by value and returns no new state, so
repeated calls never mutate the cursor). -/
theorem claim2_amended (t r : List Nat) (m : Metadata) (st' : Stream)
    (hno : containsSub t (utf8 "---") = false)
    (hlast : t.getLast? ≠ some 45)
    (hrun : Stream.read_header (Stream.new (utf8 "---" ++ t ++ utf8 "---" ++ r))
        = some (.ok m, st')) :
    Stream.current st' = some r := by
  have hd : utf8 "---" = [45, 45, 45] := by decide
  rw [hd] at hno
  unfold Stream.read_header at hrun
  rw [hd] at hrun
  have hc : ([45, 45, 45] ++ t ++ [45, 45, 45] ++ r : List Nat)
      = [45, 45, 45] ++ (t ++ ([45, 45, 45] ++ r)) := by
    simp [List.append_assoc]
  rw [hc] at hrun
  set X : List Nat := t ++ ([45, 45, 45] ++ r) with hX
  set cb : List Nat := [45, 45, 45] ++ X with hcc
  have hlen3 : ([45, 45, 45] : List Nat).length = 3 := rfl
  have hcur0 : (Stream.new cb).current = some cb := by
    simp [Stream.new, Stream.current, sliceFrom, isCharBoundary]
  have htake3 : cb.take 3 = [45, 45, 45] := by
    rw [hcc, ← hlen3]
    exact List.take_left _ _
  have hdrop3 : cb.drop 3 = X := by
    rw [hcc, ← hlen3]
    exact List.drop_left _ _
  cases hs1 : sliceTo cb 3 with
  | none =>
    have hrs1 : (Stream.new cb).read_string [45, 45, 45]
        = some (.err (.BadSyntax (.unexpectedEndOfInput [45, 45, 45])), Stream.new cb) := by
      unfold Stream.read_string
      rw [hcur0]
      dsimp only
      rw [hlen3, hs1]
    rw [hrs1] at hrun
    simp at hrun
  | some sub1 =>
    obtain ⟨hb1, hsub1⟩ := sliceTo_some hs1
    rw [htake3] at hsub1
    subst hsub1
    have hrs1 : (Stream.new cb).read_string [45, 45, 45]
        = some (.ok [45, 45, 45], ⟨3, cb⟩) := by
      unfold Stream.read_string
      rw [hcur0]
      dsimp only
      rw [hlen3, hs1]
      simp [Stream.new]
    rw [hrs1] at hrun
    dsimp only at hrun
    cases hsf1 : sliceFrom cb 3 with
    | none =>
      have hru : Stream.read_until (⟨3, cb⟩ : Stream) [45, 45, 45] = none := by
        unfold Stream.read_until Stream.current
        dsimp only
        rw [hsf1]
      rw [hru] at hrun
      simp at hrun
    | some cur1 =>
      obtain ⟨hbf1, hcur1⟩ := sliceFrom_some hsf1
      rw [hdrop3] at hcur1
      subst hcur1
      have hfind : findSub X [45, 45, 45] = some t.length := by
        rw [hX, ← List.append_assoc]
        exact findSub_dashes r hno hlast
      have hXidx : X[t.length]? = some 45 := by
        rw [hX, List.getElem?_append_right (Nat.le_refl _)]
        simp
      have hbX : isCharBoundary X t.length = true :=
        isCharBoundary_of_getElem hXidx (by decide)
      have htakeX : X.take t.length = t := by
        rw [hX]
        exact List.take_left _ _
      have hsliceX : sliceTo X t.length = some t := by
        unfold sliceTo
        rw [if_pos hbX, htakeX]
      have hru : Stream.read_until (⟨3, cb⟩ : Stream) [45, 45, 45]
          = some (.ok t, ⟨3 + t.length, cb⟩) := by
        unfold Stream.read_until Stream.current
        dsimp only
        rw [hsf1]
        dsimp only
        rw [hfind]
        dsimp only
        rw [hsliceX]
      rw [hru] at hrun
      dsimp only at hrun
      have hdropc : cb.drop (3 + t.length) = [45, 45, 45] ++ r := by
        rw [hcc, hX, ← hlen3, List.drop_append]
        exact List.drop_left _ _
      have hidxc : cb[3 + t.length]? = some 45 := by
        have hgd : (cb.drop (3 + t.length))[0]? = cb[3 + t.length + 0]? :=
          List.getElem?_drop cb (3 + t.length) 0
        rw [hdropc] at hgd
        simpa using hgd.symm
      have hbc2 : isCharBoundary cb (3 + t.length) = true :=
        isCharBoundary_of_getElem hidxc (by decide)
      have hcur2 : (⟨3 + t.length, cb⟩ : Stream).current = some ([45, 45, 45] ++ r) := by
        unfold Stream.current sliceFrom
        dsimp only
        rw [if_pos hbc2, hdropc]
      cases hs3 : sliceTo ([45, 45, 45] ++ r) 3 with
      | none =>
        have hrs3 : Stream.read_string (⟨3 + t.length, cb⟩ : Stream) [45, 45, 45]
            = some (.err (.BadSyntax (.unexpectedEndOfInput [45, 45, 45])),
                    ⟨3 + t.length, cb⟩) := by
          unfold Stream.read_string
          rw [hcur2]
          dsimp only
          rw [hlen3, hs3]
        rw [hrs3] at hrun
        simp at hrun
      | some sub3 =>
        obtain ⟨hb3, hsub3⟩ := sliceTo_some hs3
        have htk3 : ([45, 45, 45] ++ r).take 3 = [45, 45, 45] := by
          rw [← hlen3]
          exact List.take_left _ _
        rw [htk3] at hsub3
        subst hsub3
        have hrs3 : Stream.read_string (⟨3 + t.length, cb⟩ : Stream) [45, 45, 45]
            = some (.ok [45, 45, 45], ⟨3 + t.length + 3, cb⟩) := by
          unfold Stream.read_string
          rw [hcur2]
          dsimp only
          rw [hlen3, hs3]
          simp
        rw [hrs3] at hrun
        dsimp only at hrun
        cases hdec : yamlDecode t with
        | err ye =>
          rw [hdec] at hrun
          simp at hrun
        | ok m0 =>
          rw [hdec] at hrun
          dsimp only at hrun
          simp only [Option.some.injEq, Prod.mk.injEq, ParseResult.ok.injEq] at hrun
          have hst : st' = (⟨3 + t.length + 3, cb⟩ : Stream) := hrun.2.symm
          rw [hst]
          have hcsplit : cb = ([45, 45, 45] ++ t) ++ ([45, 45, 45] ++ r) := by
            rw [hcc, hX]
            simp [List.append_assoc]
          have harith : 3 + t.length + 3 = ([45, 45, 45] ++ t).length + 3 := by
            simp only [List.length_append, hlen3]
          have hbfin : isCharBoundary cb (3 + t.length + 3) = true := by
            rw [hcsplit, harith]
            exact isCharBoundary_append_right (by omega) hb3
          have hdfin : cb.drop (3 + t.length + 3) = r := by
            rw [hcsplit, harith, List.drop_append, ← hlen3]
            exact List.drop_left _ _
          unfold Stream.current sliceFrom
          dsimp only
          rw [if_pos hbfin, hdfin]

/-- Witness for the amended claim C2 at block `"\ntitle: Hello\n"` and
body `"Body"`. -/
theorem claim2_amended_witness :
    Stream.current
        (⟨20, utf8 "---" ++ utf8 "\ntitle: Hello\n" ++ utf8 "---" ++ utf8 "Body"⟩ : Stream)
      = some (utf8 "Body") :=
  claim2_amended (utf8 "\ntitle: Hello\n") (utf8 "Body")
    ⟨utf8 "Hello", none, none, none⟩
    ⟨20, utf8 "---" ++ utf8 "\ntitle: Hello\n" ++ utf8 "---" ++ utf8 "Body"⟩
    (by decide) (by decide) (by decide)

/-- Claim C6: `read_string` compares the bytes at the cursor against the
expected string: on an exact byte match (the expected string is valid
UTF-8, so the match always ends on a character boundary) it advances the
cursor by the expected length and returns the matched slice; on a
readable mismatch it fails with `BadSyntax` carrying both the expected
and the actual slice; with fewer than `length expected` bytes remaining
it fails with the unexpected-end-of-input `BadSyntax` error. -/
theorem claim6_read_string (st : Stream) (s : List Nat) (hInv : Inv st)
    (hcur : wfUtf8 (st.content.drop st.offset) = true)
    (hs : wfUtf8 s = true) :
    ((st.content.drop st.offset).take s.length = s →
      Stream.read_string st s
        = some (.ok s, ⟨st.offset + s.length, st.content⟩))
    ∧ (∀ sub, sliceTo (st.content.drop st.offset) s.length = some sub → sub ≠ s →
      Stream.read_string st s
        = some (.err (.BadSyntax (.expectedButGot s sub)), st))
    ∧ ((st.content.drop st.offset).length < s.length →
      Stream.read_string st s
        = some (.err (.BadSyntax (.unexpectedEndOfInput s)), st)) := by
  have hcur0 : st.current = some (st.content.drop st.offset) := by
    unfold Stream.current sliceFrom
    rw [if_pos hInv]
  refine ⟨?_, ?_, ?_⟩
  · intro hmatch
    have hlen : s.length ≤ (st.content.drop st.offset).length := by
      have hlt := congrArg List.length hmatch
      simp only [List.length_take] at hlt
      omega
    have hsplit : s ++ (st.content.drop st.offset).drop s.length
        = st.content.drop st.offset := by
      conv_rhs => rw [← List.take_append_drop s.length (st.content.drop st.offset)]
      rw [hmatch]
    have hwfd : wfUtf8 ((st.content.drop st.offset).drop s.length) = true := by
      apply wfUtf8_append_right s _ _ hs
      rw [hsplit]
      exact hcur
    have hbnd : isCharBoundary (st.content.drop st.offset) s.length = true :=
      isCharBoundary_of_wf_drop hlen hwfd
    have hst2 : sliceTo (st.content.drop st.offset) s.length = some s := by
      unfold sliceTo
      rw [if_pos hbnd, hmatch]
    unfold Stream.read_string
    rw [hcur0]
    dsimp only
    rw [hst2]
    simp
  · intro sub hsub hne
    unfold Stream.read_string
    rw [hcur0]
    dsimp only
    rw [hsub]
    dsimp only
    rw [if_neg (fun hh => hne hh.symm)]
  · intro hlt
    have hn : (st.content.drop st.offset)[s.length]? = none :=
      List.getElem?_eq_none (Nat.le_of_lt hlt)
    have hlt2 : st.content.length - st.offset < s.length := by
      simpa using hlt
    have hbf : isCharBoundary (st.content.drop st.offset) s.length = false := by
      unfold isCharBoundary
      rw [if_neg (by omega), hn]
      simp
      omega
    have hnone : sliceTo (st.content.drop st.offset) s.length = none := by
      unfold sliceTo
      simp [hbf]
    unfold Stream.read_string
    rw [hcur0]
    dsimp only
    rw [hnone]

/-- Witness for claim C6 at the buffer `"---abc"` and expected string
`"---"` (exact-match branch). -/
theorem claim6_witness :
    Stream.read_string (Stream.new (utf8 "---abc")) (utf8 "---")
      = some (.ok (utf8 "---"), ⟨3, utf8 "---abc"⟩) := by
  exact (claim6_read_string (Stream.new (utf8 "---abc")) (utf8 "---")
    (by decide) (by decide) (by decide)).1 (by decide)

/-- Claim C5: on success `read_until` returns the slice strictly between
the cursor and the start of the first occurrence of the delimiter,
advances the cursor exactly to the match start without consuming the
delimiter — so an immediately following `read_string` of the delimiter
succeeds — and when the delimiter is absent from the unconsumed suffix
it fails with a `BadSyntax` error. -/
theorem claim5_read_until (st : Stream) (s : List Nat) (hInv : Inv st)
    (hcur : wfUtf8 (st.content.drop st.offset) = true)
    (hs : wfUtf8 s = true) :
    (∀ idx, findSub (st.content.drop st.offset) s = some idx →
      Stream.read_until st s
        = some (.ok ((st.content.drop st.offset).take idx), ⟨st.offset + idx, st.content⟩)
      ∧ Stream.read_string (⟨st.offset + idx, st.content⟩ : Stream) s
        = some (.ok s, ⟨st.offset + idx + s.length, st.content⟩))
    ∧ (findSub (st.content.drop st.offset) s = none →
      Stream.read_until st s = some (.err (.BadSyntax (.expectedButNotFound s)), st)) := by
  have hcur0 : st.current = some (st.content.drop st.offset) := by
    unfold Stream.current sliceFrom
    rw [if_pos hInv]
  constructor
  · intro idx hf
    have hbnd : isCharBoundary (st.content.drop st.offset) idx = true :=
      findSub_boundary hs hf
    have hsl : sliceTo (st.content.drop st.offset) idx
        = some ((st.content.drop st.offset).take idx) := by
      unfold sliceTo
      rw [if_pos hbnd]
    constructor
    · unfold Stream.read_until
      rw [hcur0]
      dsimp only
      rw [hf]
      dsimp only
      rw [hsl]
    · have hbc : isCharBoundary st.content (st.offset + idx) = true :=
        isCharBoundary_drop_shift hInv hbnd
      have hcur2 : (⟨st.offset + idx, st.content⟩ : Stream).current
          = some (st.content.drop (st.offset + idx)) := by
        unfold Stream.current sliceFrom
        dsimp only
        rw [if_pos hbc]
      have hdd : st.content.drop (st.offset + idx)
          = (st.content.drop st.offset).drop idx := by
        rw [List.drop_drop]
      rw [hdd] at hcur2
      have hsw := findSub_sound hf
      have htake : ((st.content.drop st.offset).drop idx).take s.length = s :=
        startsWithB_take hsw
      have hlen2 : s.length ≤ ((st.content.drop st.offset).drop idx).length :=
        startsWithB_length hsw
      have hwfdi : wfUtf8 ((st.content.drop st.offset).drop idx) = true :=
        wfUtf8_drop hcur hbnd
      have hwfd2 : wfUtf8 (((st.content.drop st.offset).drop idx).drop s.length)
          = true := by
        apply wfUtf8_append_right s _ _ hs
        have hsplit : s ++ ((st.content.drop st.offset).drop idx).drop s.length
            = (st.content.drop st.offset).drop idx := by
          conv_rhs =>
            rw [← List.take_append_drop s.length ((st.content.drop st.offset).drop idx)]
          rw [htake]
        rw [hsplit]
        exact hwfdi
      have hbnd2 : isCharBoundary ((st.content.drop st.offset).drop idx) s.length
          = true := isCharBoundary_of_wf_drop hlen2 hwfd2
      have hst2 : sliceTo ((st.content.drop st.offset).drop idx) s.length = some s := by
        unfold sliceTo
        rw [if_pos hbnd2, htake]
      unfold Stream.read_string
      rw [hcur2]
      dsimp only
      rw [hst2]
      simp
  · intro hf
    unfold Stream.read_until
    rw [hcur0]
    dsimp only
    rw [hf]

/-- Witness for claim C5 at the buffer `"ab---cd"` and delimiter `"---"`
(the occurrence starts at byte 2; the follow-up literal consume
succeeds). -/
theorem claim5_witness :
    Stream.read_until (Stream.new (utf8 "ab---cd")) (utf8 "---")
      = some (.ok (utf8 "ab"), ⟨2, utf8 "ab---cd"⟩)
    ∧ Stream.read_string (⟨2, utf8 "ab---cd"⟩ : Stream) (utf8 "---")
      = some (.ok (utf8 "---"), ⟨5, utf8 "ab---cd"⟩) := by
  exact (claim5_read_until (Stream.new (utf8 "ab---cd")) (utf8 "---")
    (by decide) (by decide) (by decide)).1 2 (by decide)

/-! ### Step lemmas for the cursor invariant -/

theorem read_string_ok {st : Stream} (s : List Nat) (hInv : Inv st) :
    ∃ res st1, Stream.read_string st s = some (res, st1) ∧ Inv st1 := by
  have hcur0 : st.current = some (st.content.drop st.offset) := by
    unfold Stream.current sliceFrom
    rw [if_pos hInv]
  cases hslice : sliceTo (st.content.drop st.offset) s.length with
  | none =>
    refine ⟨.err (.BadSyntax (.unexpectedEndOfInput s)), st, ?_, hInv⟩
    unfold Stream.read_string
    rw [hcur0]
    dsimp only
    rw [hslice]
  | some sub =>
    obtain ⟨hbnd, hsub⟩ := sliceTo_some hslice
    by_cases he : s = sub
    · refine ⟨.ok sub, ⟨st.offset + s.length, st.content⟩, ?_, ?_⟩
      · unfold Stream.read_string
        rw [hcur0]
        dsimp only
        rw [hslice]
        dsimp only
        rw [if_pos he]
      · exact isCharBoundary_drop_shift hInv hbnd
    · refine ⟨.err (.BadSyntax (.expectedButGot s sub)), st, ?_, hInv⟩
      unfold Stream.read_string
      rw [hcur0]
      dsimp only
      rw [hslice]
      dsimp only
      rw [if_neg he]

theorem read_until_ok {st : Stream} (s : List Nat) (hInv : Inv st)
    (hs : wfUtf8 s = true) :
    ∃ res st1, Stream.read_until st s = some (res, st1) ∧ Inv st1 := by
  have hcur0 : st.current = some (st.content.drop st.offset) := by
    unfold Stream.current sliceFrom
    rw [if_pos hInv]
  cases hf : findSub (st.content.drop st.offset) s with
  | none =>
    refine ⟨.err (.BadSyntax (.expectedButNotFound s)), st, ?_, hInv⟩
    unfold Stream.read_until
    rw [hcur0]
    dsimp only
    rw [hf]
  | some idx =>
    have hbnd : isCharBoundary (st.content.drop st.offset) idx = true :=
      findSub_boundary hs hf
    have hsl : sliceTo (st.content.drop st.offset) idx
        = some ((st.content.drop st.offset).take idx) := by
      unfold sliceTo
      rw [if_pos hbnd]
    refine ⟨.ok ((st.content.drop st.offset).take idx),
      ⟨st.offset + idx, st.content⟩, ?_, ?_⟩
    · unfold Stream.read_until
      rw [hcur0]
      dsimp only
      rw [hf]
      dsimp only
      rw [hsl]
    · exact isCharBoundary_drop_shift hInv hbnd

/-- Claim C9: the cursor invariant — `0 ≤ offset ≤ length(content)` with
the offset on a valid UTF-8 character boundary — holds after
`Stream.new` and is preserved by `read_string`, `read_until` and
`read_header` (whether the call succeeds or fails, for a valid UTF-8
search string); consequently the `unwrap` inside `current` and the
`unwrap` inside `read_until` never panic (none of the operations returns
the `none` that models a panic). -/
theorem claim9_cursor_invariant (cbuf : List Nat) (st : Stream) (s : List Nat)
    (hInv : Inv st) (hs : wfUtf8 s = true) :
    Inv (Stream.new cbuf)
    ∧ st.offset ≤ st.content.length
    ∧ (Stream.current st).isSome = true
    ∧ (∃ res st1, Stream.read_string st s = some (res, st1) ∧ Inv st1)
    ∧ (∃ res st2, Stream.read_until st s = some (res, st2) ∧ Inv st2)
    ∧ (∃ res st3, Stream.read_header st = some (res, st3) ∧ Inv st3) := by
  refine ⟨isCharBoundary_zero cbuf, isCharBoundary_le hInv, ?_,
    read_string_ok s hInv, read_until_ok s hInv hs, ?_⟩
  · unfold Stream.current sliceFrom
    rw [if_pos hInv]
    rfl
  · obtain ⟨r1, st1, he1, hi1⟩ := read_string_ok (utf8 "---") hInv
    unfold Stream.read_header
    rw [he1]
    cases r1 with
    | err e => exact ⟨.err e, st1, rfl, hi1⟩
    | ok a =>
      dsimp only
      obtain ⟨r2, st2, he2, hi2⟩ := read_until_ok (utf8 "---") hi1 (by decide)
      rw [he2]
      cases r2 with
      | err e => exact ⟨.err e, st2, rfl, hi2⟩
      | ok raw =>
        dsimp only
        obtain ⟨r3, st3, he3, hi3⟩ := read_string_ok (utf8 "---") hi2
        rw [he3]
        cases r3 with
        | err e => exact ⟨.err e, st3, rfl, hi3⟩
        | ok b =>
          dsimp only
          cases hdec : yamlDecode raw with
          | err ye => exact ⟨.err (.WrongYaml ye), st3, rfl, hi3⟩
          | ok m => exact ⟨.ok m, st3, rfl, hi3⟩

/-- Witness for claim C9 at the buffer `"---a"` and search string `"---"`. -/
theorem claim9_witness :
    Inv (Stream.new (utf8 "x"))
    ∧ (Stream.new (utf8 "---a")).offset ≤ (Stream.new (utf8 "---a")).content.length
    ∧ (Stream.current (Stream.new (utf8 "---a"))).isSome = true
    ∧ (∃ res st1, Stream.read_string (Stream.new (utf8 "---a")) (utf8 "---")
        = some (res, st1) ∧ Inv st1)
    ∧ (∃ res st2, Stream.read_until (Stream.new (utf8 "---a")) (utf8 "---")
        = some (res, st2) ∧ Inv st2)
    ∧ (∃ res st3, Stream.read_header (Stream.new (utf8 "---a"))
        = some (res, st3) ∧ Inv st3) := by
  exact claim9_cursor_invariant (utf8 "x") (Stream.new (utf8 "---a")) (utf8 "---")
    (by decide) (by decide)

/-- Claim C7: `read_header` performs exactly the step sequence
`read_string "---"`, `read_until "---"`, `read_string "---"`, then
decoding of the captured block; the failure of any step short-circuits
the whole operation and propagates that step's error unchanged, and no
metadata record is ever returned on failure. -/
theorem claim7_read_header_pipeline (st : Stream) :
    (∀ e st1, st.read_string (utf8 "---") = some (.err e, st1) →
      Stream.read_header st = some (.err e, st1))
    ∧ (∀ a st1 e st2, st.read_string (utf8 "---") = some (.ok a, st1) →
        st1.read_until (utf8 "---") = some (.err e, st2) →
        Stream.read_header st = some (.err e, st2))
    ∧ (∀ a st1 raw st2 e st3, st.read_string (utf8 "---") = some (.ok a, st1) →
        st1.read_until (utf8 "---") = some (.ok raw, st2) →
        st2.read_string (utf8 "---") = some (.err e, st3) →
        Stream.read_header st = some (.err e, st3))
    ∧ (∀ a st1 raw st2 b st3 ye, st.read_string (utf8 "---") = some (.ok a, st1) →
        st1.read_until (utf8 "---") = some (.ok raw, st2) →
        st2.read_string (utf8 "---") = some (.ok b, st3) →
        yamlDecode raw = .err ye →
        Stream.read_header st = some (.err (.WrongYaml ye), st3))
    ∧ (∀ a st1 raw st2 b st3 m, st.read_string (utf8 "---") = some (.ok a, st1) →
        st1.read_until (utf8 "---") = some (.ok raw, st2) →
        st2.read_string (utf8 "---") = some (.ok b, st3) →
        yamlDecode raw = .ok m →
        Stream.read_header st = some (.ok m, st3))
    ∧ (∀ e st1, Stream.read_header st = some (.err e, st1) →
        ∀ m st2, Stream.read_header st ≠ some (.ok m, st2)) := by
  refine ⟨?_, ?_, ?_, ?_, ?_, ?_⟩
  · intro e st1 h1
    unfold Stream.read_header
    rw [h1]
  · intro a st1 e st2 h1 h2
    unfold Stream.read_header
    rw [h1]
    dsimp only
    rw [h2]
  · intro a st1 raw st2 e st3 h1 h2 h3
    unfold Stream.read_header
    rw [h1]
    dsimp only
    rw [h2]
    dsimp only
    rw [h3]
  · intro a st1 raw st2 b st3 ye h1 h2 h3 h4
    unfold Stream.read_header
    rw [h1]
    dsimp only
    rw [h2]
    dsimp only
    rw [h3]
    dsimp only
    rw [h4]
  · intro a st1 raw st2 b st3 m h1 h2 h3 h4
    unfold Stream.read_header
    rw [h1]
    dsimp only
    rw [h2]
    dsimp only
    rw [h3]
    dsimp only
    rw [h4]
  · intro e st1 herr m st2 hok
    rw [herr] at hok
    simp at hok

/-- Witness for claim C7: a missing opening delimiter short-circuits
`read_header` with the first step's error. -/
theorem claim7_witness :
    Stream.read_header (Stream.new (utf8 "xyz"))
      = some (.err (.BadSyntax (.expectedButGot (utf8 "---") (utf8 "xyz"))),
              Stream.new (utf8 "xyz")) := by
  exact (claim7_read_header_pipeline (Stream.new (utf8 "xyz"))).1
    (.BadSyntax (.expectedButGot (utf8 "---") (utf8 "xyz")))
    (Stream.new (utf8 "xyz")) (by decide)

end Hakyll2Zola
